import Mathlib

/-!
# Free-time-slot computation of ChronoFlow: a verification development

Shallow embedding of `GoogleCalendarService.calculate_free_time_slots` and
`GoogleCalendarService._calculate_slot_quality`
(`backend/app/services/google_calendar_service.py`).

Modelling conventions:
* Instants (`datetime`) are integers counting seconds from a midnight, so the
  hour of day of an instant `t` is `t / 3600 % 24`.
* Python `float` arithmetic on scores is modelled by exact rational
  arithmetic (`ℚ`); every constant involved is a small decimal.
* The Python preference dict is modelled by a structure of optional fields;
  fields that may hold either a string or a number use `PrefValue`.
* `list.sort(key=lambda x: x.start_time)` is a stable sort on the start
  field; it is embedded as `List.insertionSort` on `start_time ≤ start_time`,
  which computes exactly the stable sort by that key.
-/

/-- Calendar event as consumed by the calculator: only `start_time`,
`end_time` and `is_busy` are read by `calculate_free_time_slots`
(the remaining schema fields — id, title, description, category — are
never accessed by it). -/
structure CalendarEvent where
  start_time : Int
  end_time : Int
  is_busy : Bool
deriving DecidableEq

/-- Output slot record `FreeTimeSlot(start_time, end_time, duration_minutes,
quality_score)`. -/
structure FreeTimeSlot where
  start_time : Int
  end_time : Int
  duration_minutes : Int
  quality_score : ℚ
deriving DecidableEq

/-- A value stored in the preferences dict for a time-of-day field: either a
string or a number (the code branches on `isinstance(value, str)`). -/
inductive PrefValue where
  | str (s : String)
  | num (n : Int)
deriving DecidableEq

/-- The `user_preferences` dict, restricted to the keys the scoring function
reads.  `none` models an absent key (so that `dict.get(key, default)`
becomes `Option.getD`). -/
structure UserPreferences where
  work_start_time : Option PrefValue := none
  work_end_time : Option PrefValue := none
  peak_hours_start : Option PrefValue := none
  peak_hours_end : Option PrefValue := none
  work_start_hour : Option Int := none
  work_end_hour : Option Int := none
  work_style : Option String := none
deriving DecidableEq

/-- Python `str.split(sep)` for a one-character separator: splits at every
occurrence, keeping empty parts; always returns at least one part. -/
def splitOnChar (sep : Char) : List Char → List (List Char)
  | [] => [[]]
  | c :: cs =>
    if c = sep then [] :: splitOnChar sep cs
    else
      match splitOnChar sep cs with
      | [] => [[c]]
      | part :: parts => (c :: part) :: parts

/-- Value of a decimal digit character, `none` otherwise. -/
def digitVal (c : Char) : Option Nat :=
  if '0' ≤ c ∧ c ≤ '9' then some (c.toNat - '0'.toNat) else none

/-- Decimal digit-string parsing: `none` unless the list is one or more
decimal digits. -/
def parseDigits : List Char → Option Nat
  | [] => none
  | cs => cs.foldl (fun acc c => acc.bind fun n => (digitVal c).map (n * 10 + ·)) (some 0)

/-- Python `int(s)` on a string: optional sign followed by decimal digits;
`none` models the `ValueError` raised on anything else. -/
def pyInt (cs : List Char) : Option Int :=
  match cs with
  | '-' :: rest => (parseDigits rest).map (fun n => -(n : Int))
  | '+' :: rest => (parseDigits rest).map (fun n => (n : Int))
  | _ => (parseDigits cs).map (fun n => (n : Int))

/-- Hour extraction applied to a string preference value, mirroring

```
if "T" in v: time_part = v.split("T")[1].split(":")[0]; h = int(time_part)
else:        h = int(v.split(":")[0])
```

`none` models the `ValueError`/`IndexError` raised by `int(...)` on a
non-numeric part. -/
def extractHour (v : String) : Option Int :=
  let chars := v.toList
  if chars.contains 'T' then
    match splitOnChar 'T' chars with
    | _ :: timePart :: _ => pyInt ((splitOnChar ':' timePart).headD [])
    | _ => none
  else pyInt ((splitOnChar ':' chars).headD [])

/-- The work-hours parsing block of `_calculate_slot_quality`.  Both fields
are parsed inside a single `try`; an exception from either parse lands in the
shared `except` handler, which assigns `work_start = 9; work_end = 17`.
A non-string value makes the code read the companion integer key
(`work_start_hour` / `work_end_hour`) instead, which cannot raise. -/
def workHours (p : UserPreferences) : Int × Int :=
  let work_start_time := p.work_start_time.getD (.str "09:00")
  let work_end_time := p.work_end_time.getD (.str "17:00")
  let ws : Option Int :=
    match work_start_time with
    | .str s => extractHour s
    | .num _ => some (p.work_start_hour.getD 9)
  let we : Option Int :=
    match work_end_time with
    | .str s => extractHour s
    | .num _ => some (p.work_end_hour.getD 17)
  match ws, we with
  | some a, some b => (a, b)
  | _, _ => (9, 17)

/-- The peak-hours parsing block of `_calculate_slot_quality`: same shared
`try`/`except` shape as `workHours`, with defaults `10`/`12`; a non-string
value is used directly as the hour (`user_preferences.get("peak_hours_start", 10)`
re-reads the same key). -/
def peakHours (p : UserPreferences) : Int × Int :=
  let peak_start_time := p.peak_hours_start.getD (.str "10:00")
  let peak_end_time := p.peak_hours_end.getD (.str "12:00")
  let ps : Option Int :=
    match peak_start_time with
    | .str s => extractHour s
    | .num n => some n
  let pe : Option Int :=
    match peak_end_time with
    | .str s => extractHour s
    | .num n => some n
  match ps, pe with
  | some a, some b => (a, b)
  | _, _ => (10, 12)

/-- `start_time.hour` for an instant measured in seconds from a midnight. -/
def hourOfDay (t : Int) : Int :=
  t / 3600 % 24

/-- `_calculate_slot_quality(start_time, end_time, user_preferences)`. -/
def calculate_slot_quality (start_time end_time : Int) (p : UserPreferences) : ℚ :=
  let quality : ℚ := 0.5
  let hour := hourOfDay start_time
  let wh := workHours p
  let quality := if wh.1 ≤ hour ∧ hour < wh.2 then quality + 0.3 else quality
  let ph := peakHours p
  let quality := if ph.1 ≤ hour ∧ hour < ph.2 then quality + 0.3 else quality
  let work_style := p.work_style.getD "flexible"
  let quality :=
    if work_style = "morning_person" ∧ hour < 12 then quality + 0.2
    else if work_style = "evening_person" ∧ 15 ≤ hour then quality + 0.2
    else quality
  let quality := if hour < 7 ∨ 20 < hour then quality - 0.3 else quality
  let duration_minutes : ℚ := ((end_time - start_time : Int) : ℚ) / 60
  let quality := if 60 ≤ duration_minutes then quality + 0.1 else quality
  let quality := if 120 ≤ duration_minutes then quality + 0.1 else quality
  max 0 (min 1 quality)

/-- `int((e - s).total_seconds() / 60)`: minutes between two instants,
truncated toward zero (Python `int()` on a float truncates toward zero). -/
def minutesBetween (s e : Int) : Int :=
  Int.tdiv (e - s) 60

/-- Ordering used by `busy_events.sort(key=lambda x: x.start_time)`. -/
def eventLE (a b : CalendarEvent) : Prop :=
  a.start_time ≤ b.start_time

instance : DecidableRel eventLE := fun a b =>
  inferInstanceAs (Decidable (a.start_time ≤ b.start_time))

instance : IsTotal CalendarEvent eventLE :=
  ⟨fun a b => Int.le_total a.start_time b.start_time⟩

instance : IsTrans CalendarEvent eventLE :=
  ⟨fun _ _ _ hab hbc => le_trans hab hbc⟩

/-- `busy_events = [e for e in events if e.is_busy]` followed by
`busy_events.sort(key=lambda x: x.start_time)` (a stable sort by start). -/
def sortedBusyEvents (events : List CalendarEvent) : List CalendarEvent :=
  List.insertionSort eventLE (events.filter (·.is_busy))

/-- The gap-walking loop of `calculate_free_time_slots`: running cursor
`current_time`, one candidate gap before each busy event, cursor advanced to
`max(current_time, event.end_time)`, and the final gap up to `end_time`
emitted after the last event. -/
def freeSlotsLoop (end_time : Int) (p : UserPreferences) (minimum_slot_minutes : Int) :
    Int → List CalendarEvent → List FreeTimeSlot
  | current_time, [] =>
    if current_time < end_time then
      let slot_duration := minutesBetween current_time end_time
      if minimum_slot_minutes ≤ slot_duration then
        [⟨current_time, end_time, slot_duration,
          calculate_slot_quality current_time end_time p⟩]
      else []
    else []
  | current_time, event :: rest =>
    (if current_time < event.start_time then
      let slot_duration := minutesBetween current_time event.start_time
      if minimum_slot_minutes ≤ slot_duration then
        [⟨current_time, event.start_time, slot_duration,
          calculate_slot_quality current_time event.start_time p⟩]
      else []
    else []) ++
    freeSlotsLoop end_time p minimum_slot_minutes
      (max current_time event.end_time) rest

/-- `calculate_free_time_slots(events, start_time, end_time,
user_preferences, minimum_slot_minutes)`. -/
def calculate_free_time_slots (events : List CalendarEvent)
    (start_time end_time : Int) (p : UserPreferences)
    (minimum_slot_minutes : Int) : List FreeTimeSlot :=
  freeSlotsLoop end_time p minimum_slot_minutes start_time
    (sortedBusyEvents events)

/-- Preferences with every key absent: all defaults apply
(work 9–17, peak 10–12, flexible). -/
def defaultPrefs : UserPreferences := {}

/-! ## Helper lemmas about the gap walk -/

/-- Once the cursor is at or past `end_time` and at or past every remaining
event's start, the walk emits nothing. -/
theorem freeSlotsLoop_nil_of_le (e : Int) (p : UserPreferences) (m : Int) :
    ∀ (l : List CalendarEvent) (c : Int), e ≤ c → (∀ ev ∈ l, ev.start_time ≤ c) →
      freeSlotsLoop e p m c l = []
  | [], c, hec, _ => by
    simp [freeSlotsLoop, not_lt.mpr hec]
  | ev :: rest, c, hec, hl => by
    have h1 : ¬ c < ev.start_time := not_lt.mpr (hl ev (List.mem_cons_self ..))
    simp only [freeSlotsLoop, if_neg h1, List.nil_append]
    exact freeSlotsLoop_nil_of_le e p m rest (max c ev.end_time)
      (le_trans hec (le_max_left ..))
      (fun x hx => le_trans (hl x (List.mem_cons_of_mem _ hx)) (le_max_left ..))

/-- Every slot emitted by the walk starts at or after the cursor, is
non-degenerate, stores the truncated minute count of its own bounds, and
meets the minimum-duration threshold. -/
theorem freeSlotsLoop_mem_props (e : Int) (p : UserPreferences) (m : Int) :
    ∀ (l : List CalendarEvent) (c : Int) (slot : FreeTimeSlot),
      slot ∈ freeSlotsLoop e p m c l →
      slot.start_time < slot.end_time ∧
      slot.duration_minutes = minutesBetween slot.start_time slot.end_time ∧
      m ≤ slot.duration_minutes ∧ c ≤ slot.start_time
  | [], c, slot, hmem => by
    simp only [freeSlotsLoop] at hmem
    split_ifs at hmem with h1 h2
    · rw [List.mem_singleton] at hmem
      subst hmem
      exact ⟨h1, rfl, h2, le_refl _⟩
    · exact absurd hmem (List.not_mem_nil _)
    · exact absurd hmem (List.not_mem_nil _)
  | ev :: rest, c, slot, hmem => by
    simp only [freeSlotsLoop, List.mem_append] at hmem
    rcases hmem with hmem | hmem
    · split_ifs at hmem with h1 h2
      · rw [List.mem_singleton] at hmem
        subst hmem
        exact ⟨h1, rfl, h2, le_refl _⟩
      · exact absurd hmem (List.not_mem_nil _)
      · exact absurd hmem (List.not_mem_nil _)
    · have ih := freeSlotsLoop_mem_props e p m rest (max c ev.end_time) slot hmem
      exact ⟨ih.1, ih.2.1, ih.2.2.1, le_trans (le_max_left ..) ih.2.2.2⟩

/-- Membership in the sorted busy list comes from a busy member of the
input list. -/
theorem mem_sortedBusyEvents {events : List CalendarEvent} {ev : CalendarEvent}
    (h : ev ∈ sortedBusyEvents events) : ev ∈ events ∧ ev.is_busy = true := by
  unfold sortedBusyEvents at h
  rw [List.mem_insertionSort, List.mem_filter] at h
  exact h

/-- Evaluation of the default work hours. -/
theorem workHours_default : workHours defaultPrefs = (9, 17) := by decide

/-- Evaluation of the default peak hours. -/
theorem peakHours_default : peakHours defaultPrefs = (10, 12) := by decide

/-! ## C5: the worked scenario from the spec -/

/-- C5: for the range 09:00–17:00 with one busy interval 12:00–13:00,
`minimumSlotMinutes = 30` and default preferences, the function returns
exactly the slots 09:00–12:00 (180 min, score 1.0) and 13:00–17:00
(240 min, score 1.0), in this order. -/
theorem c5_worked_scenario :
    calculate_free_time_slots [⟨43200, 46800, true⟩] 32400 61200 defaultPrefs 30 =
      [⟨32400, 43200, 180, 1⟩, ⟨46800, 61200, 240, 1⟩] := by
  have e1 : calculate_slot_quality 32400 43200 defaultPrefs = 1 := by
    unfold calculate_slot_quality
    rw [workHours_default, peakHours_default]
    have hh : hourOfDay 32400 = 9 := by decide
    rw [hh]
    norm_num +decide [defaultPrefs]
  have e2 : calculate_slot_quality 46800 61200 defaultPrefs = 1 := by
    unfold calculate_slot_quality
    rw [workHours_default, peakHours_default]
    have hh : hourOfDay 46800 = 13 := by decide
    rw [hh]
    norm_num +decide [defaultPrefs]
  have d1 : minutesBetween 32400 43200 = 180 := by decide
  have d2 : minutesBetween 46800 61200 = 240 := by decide
  have hmax : max (32400 : Int) 46800 = 46800 := by decide
  unfold calculate_free_time_slots sortedBusyEvents
  simp [freeSlotsLoop, d1, d2, e1, e2, hmax]

/-! ## C10: tentative intervals are ignored entirely -/

/-- C10: the output equals the output on the input with every
`isBusy = false` interval removed; tentative intervals never affect any
returned slot. -/
theorem c10_tentative_removed (events : List CalendarEvent) (s e : Int)
    (p : UserPreferences) (m : Int) :
    calculate_free_time_slots events s e p m =
      calculate_free_time_slots (events.filter (·.is_busy)) s e p m := by
  unfold calculate_free_time_slots sortedBusyEvents
  rw [List.filter_filter]
  simp only [Bool.and_self]

/-! ## C2: the claimed precondition errors do not exist in the code -/

/-- C2 counterexample: with `rangeStart > rangeEnd` the function returns
normally (the empty list) instead of failing with `InvalidRangeError`, and
with `minimumSlotMinutes = 0 ≤ 0` it returns normally (a slot) instead of
failing with `InvalidConfigurationError`; no error is raised anywhere in
`calculate_free_time_slots`. -/
theorem c2_counterexample :
    calculate_free_time_slots [] 3600 0 defaultPrefs 30 = [] ∧
    calculate_free_time_slots [] 0 3600 defaultPrefs 0 =
      [⟨0, 3600, 60, (3 : ℚ)/10⟩] := by
  constructor
  · decide
  · have e : calculate_slot_quality 0 3600 defaultPrefs = 3/10 := by
      unfold calculate_slot_quality
      rw [workHours_default, peakHours_default]
      have hh : hourOfDay 0 = 0 := by decide
      rw [hh]
      norm_num +decide [defaultPrefs]
    have d : minutesBetween 0 3600 = 60 := by decide
    unfold calculate_free_time_slots sortedBusyEvents
    simp [freeSlotsLoop, d, e]

/-- C2 amended: `calculate_free_time_slots` performs no input validation and
never fails.  With a reversed range (and no busy events) it returns the empty
list; with a non-positive `minimumSlotMinutes` every candidate gap passes the
threshold and is returned. -/
theorem c2_amended_no_validation (s e m : Int) (p : UserPreferences) :
    (e < s → calculate_free_time_slots [] s e p m = []) ∧
    (m ≤ 0 → s < e →
      calculate_free_time_slots [] s e p m =
        [⟨s, e, minutesBetween s e, calculate_slot_quality s e p⟩]) := by
  constructor
  · intro h
    unfold calculate_free_time_slots sortedBusyEvents
    simp [freeSlotsLoop, not_lt.mpr (le_of_lt h)]
  · intro hm hse
    have hd : (0 : Int) ≤ minutesBetween s e :=
      Int.tdiv_nonneg (by omega) (by norm_num)
    unfold calculate_free_time_slots sortedBusyEvents
    simp [freeSlotsLoop, hse, le_trans hm hd]

/-- Witness for `c2_amended_no_validation` at a concrete reversed range. -/
theorem c2_amended_no_validation_witness :
    (0 : Int) < 3600 ∧ calculate_free_time_slots [] 3600 0 defaultPrefs 30 = [] :=
  ⟨by decide, (c2_amended_no_validation 3600 0 30 defaultPrefs).1 (by decide)⟩

/-! ## C7: `rangeStart == rangeEnd` does not always yield an empty result -/

/-- C7 counterexample: with `rangeStart = rangeEnd = 09:00` and a busy
interval 10:00–11:00 the function returns a (non-empty) slot 09:00–10:00,
because a gap is emitted before any busy event that starts after the cursor,
even past `rangeEnd`. -/
theorem c7_counterexample :
    calculate_free_time_slots [⟨36000, 39600, true⟩] 32400 32400 defaultPrefs 15 =
      [⟨32400, 36000, 60, (9 : ℚ)/10⟩] ∧
    calculate_free_time_slots [⟨36000, 39600, true⟩] 32400 32400 defaultPrefs 15 ≠ [] := by
  have hmain : calculate_free_time_slots [⟨36000, 39600, true⟩] 32400 32400 defaultPrefs 15 =
      [⟨32400, 36000, 60, (9 : ℚ)/10⟩] := by
    have e : calculate_slot_quality 32400 36000 defaultPrefs = 9/10 := by
      unfold calculate_slot_quality
      rw [workHours_default, peakHours_default]
      have hh : hourOfDay 32400 = 9 := by decide
      rw [hh]
      norm_num +decide [defaultPrefs]
    have d : minutesBetween 32400 36000 = 60 := by decide
    have hmax : max (32400 : Int) 39600 = 39600 := by decide
    unfold calculate_free_time_slots sortedBusyEvents
    simp [freeSlotsLoop, d, e, hmax]
  exact ⟨hmain, by rw [hmain]; simp⟩

/-- C7 amended: with `rangeStart = rangeEnd` the result is empty provided
every busy interval starts at or before `rangeStart` (in particular whenever
`busyIntervals` is empty). -/
theorem c7_amended_empty_range (events : List CalendarEvent) (s : Int)
    (p : UserPreferences) (m : Int)
    (h : ∀ ev ∈ events, ev.is_busy = true → ev.start_time ≤ s) :
    calculate_free_time_slots events s s p m = [] := by
  unfold calculate_free_time_slots
  exact freeSlotsLoop_nil_of_le s p m _ s (le_refl s)
    (fun ev hev => h ev (mem_sortedBusyEvents hev).1 (mem_sortedBusyEvents hev).2)

/-- Witness for `c7_amended_empty_range`: a busy interval starting before the
(empty) range. -/
theorem c7_amended_empty_range_witness :
    (∀ ev ∈ [(⟨0, 3600, true⟩ : CalendarEvent)], ev.is_busy = true → ev.start_time ≤ 7200) ∧
    calculate_free_time_slots [⟨0, 3600, true⟩] 7200 7200 defaultPrefs 15 = [] :=
  ⟨by decide, c7_amended_empty_range [⟨0, 3600, true⟩] 7200 defaultPrefs 15 (by decide)⟩

/-! ## C3: preference-field parsing is NOT per-field independent -/

/-- Modelled from the spec, for comparison with the source's `workHours`
(refinement claim C3): each time-of-day field independently falls back to its
own documented default when it cannot be parsed, leaving the other fields'
effective values untouched. -/
def specIndependentWorkHours (p : UserPreferences) : Int × Int :=
  (match p.work_start_time.getD (.str "09:00") with
   | .str s => (extractHour s).getD 9
   | .num _ => p.work_start_hour.getD 9,
   match p.work_end_time.getD (.str "17:00") with
   | .str s => (extractHour s).getD 17
   | .num _ => p.work_end_hour.getD 17)

/-- Preferences with a well-formed work start ("14:00") and a malformed work
end ("not-a-time"). -/
def prefsC3 : UserPreferences :=
  { work_start_time := some (.str "14:00"), work_end_time := some (.str "not-a-time") }

/-- C3 counterexample: the work fields are parsed in one shared
`try`/`except`, so a malformed `work_end_time` alone resets the
well-formed, parseable `work_start_time` "14:00" (hour 14) to the default 9
as well — the effective pair is (9, 17), not the (14, 17) the claim
requires, observably changing the score of a 10:00–10:30 slot. -/
theorem c3_counterexample :
    extractHour "14:00" = some 14 ∧
    extractHour "not-a-time" = none ∧
    workHours prefsC3 = (9, 17) ∧
    specIndependentWorkHours prefsC3 = (14, 17) ∧
    workHours prefsC3 ≠ specIndependentWorkHours prefsC3 ∧
    calculate_slot_quality 36000 37800 prefsC3 = 1 := by
  refine ⟨by decide, by decide, by decide, by decide, by decide, ?_⟩
  have hw : workHours prefsC3 = (9, 17) := by decide
  have hp : peakHours prefsC3 = (10, 12) := by decide
  unfold calculate_slot_quality
  rw [hw, hp]
  have hh : hourOfDay 36000 = 10 := by decide
  rw [hh]
  norm_num +decide [prefsC3]

/-- C3 amended: string preference fields are parsed jointly per pair.  If
both members of the work pair parse, their hours are used; if either member
fails to parse, the whole pair falls back to (9, 17).  Likewise the peak
pair falls back jointly to (10, 12).  The work pair and the peak pair are
independent of each other, and parse failures never fail the call. -/
theorem c3_amended_joint_pair_fallback :
    (∀ (p : UserPreferences) (s₁ s₂ : String) (h₁ h₂ : Int),
        p.work_start_time = some (.str s₁) → p.work_end_time = some (.str s₂) →
        extractHour s₁ = some h₁ → extractHour s₂ = some h₂ →
        workHours p = (h₁, h₂)) ∧
    (∀ (p : UserPreferences) (s₁ s₂ : String),
        p.work_start_time = some (.str s₁) → p.work_end_time = some (.str s₂) →
        (extractHour s₁ = none ∨ extractHour s₂ = none) →
        workHours p = (9, 17)) ∧
    (∀ (p : UserPreferences) (s₁ s₂ : String) (h₁ h₂ : Int),
        p.peak_hours_start = some (.str s₁) → p.peak_hours_end = some (.str s₂) →
        extractHour s₁ = some h₁ → extractHour s₂ = some h₂ →
        peakHours p = (h₁, h₂)) ∧
    (∀ (p : UserPreferences) (s₁ s₂ : String),
        p.peak_hours_start = some (.str s₁) → p.peak_hours_end = some (.str s₂) →
        (extractHour s₁ = none ∨ extractHour s₂ = none) →
        peakHours p = (10, 12)) ∧
    (∀ p q : UserPreferences,
        p.work_start_time = q.work_start_time → p.work_end_time = q.work_end_time →
        p.work_start_hour = q.work_start_hour → p.work_end_hour = q.work_end_hour →
        workHours p = workHours q) ∧
    (∀ p q : UserPreferences,
        p.peak_hours_start = q.peak_hours_start → p.peak_hours_end = q.peak_hours_end →
        peakHours p = peakHours q) := by
  refine ⟨?_, ?_, ?_, ?_, ?_, ?_⟩
  · intro p s₁ s₂ h₁ h₂ hws hwe hh₁ hh₂
    simp [workHours, hws, hwe, hh₁, hh₂]
  · intro p s₁ s₂ hws hwe hfail
    rcases hfail with h | h
    · simp [workHours, hws, hwe, h]
    · cases hx : extractHour s₁ <;> simp [workHours, hws, hwe, h, hx]
  · intro p s₁ s₂ h₁ h₂ hps hpe hh₁ hh₂
    simp [peakHours, hps, hpe, hh₁, hh₂]
  · intro p s₁ s₂ hps hpe hfail
    rcases hfail with h | h
    · simp [peakHours, hps, hpe, h]
    · cases hx : extractHour s₁ <;> simp [peakHours, hps, hpe, h, hx]
  · intro p q h1 h2 h3 h4
    simp only [workHours, h1, h2, h3, h4]
  · intro p q h1 h2
    simp only [peakHours, h1, h2]

/-- Witness for `c3_amended_joint_pair_fallback` at the concrete malformed
pair of `prefsC3`. -/
theorem c3_amended_joint_pair_fallback_witness :
    prefsC3.work_start_time = some (.str "14:00") ∧
    prefsC3.work_end_time = some (.str "not-a-time") ∧
    extractHour "not-a-time" = none ∧
    workHours prefsC3 = (9, 17) :=
  ⟨rfl, rfl, by decide,
    c3_amended_joint_pair_fallback.2.1 prefsC3 "14:00" "not-a-time" rfl rfl
      (Or.inr (by decide))⟩

/-! ## C1: the additive clamped score formula -/

set_option maxHeartbeats 1000000 in
/-- C1: for every slot with `end > start`, `_calculate_slot_quality` returns
exactly the clamp to [0, 1] of 0.5 plus the seven additive adjustments
(work-hours +0.3, peak-hours +0.3, morning person before 12 +0.2, evening
person from 15 +0.2, before-7-or-after-20 −0.3, ≥ 60 minutes +0.1, a further
+0.1 at ≥ 120 minutes), so the score always lies in [0, 1]. -/
theorem c1_slot_quality_formula (s e : Int) (p : UserPreferences) (h : s < e) :
    calculate_slot_quality s e p =
      max 0 (min 1
        ((0.5 : ℚ)
          + (if (workHours p).1 ≤ hourOfDay s ∧ hourOfDay s < (workHours p).2 then 0.3 else 0)
          + (if (peakHours p).1 ≤ hourOfDay s ∧ hourOfDay s < (peakHours p).2 then 0.3 else 0)
          + (if p.work_style.getD "flexible" = "morning_person" ∧ hourOfDay s < 12 then 0.2 else 0)
          + (if p.work_style.getD "flexible" = "evening_person" ∧ 15 ≤ hourOfDay s then 0.2 else 0)
          - (if hourOfDay s < 7 ∨ 20 < hourOfDay s then 0.3 else 0)
          + (if (3600 : Int) ≤ e - s then 0.1 else 0)
          + (if (7200 : Int) ≤ e - s then 0.1 else 0))) ∧
    0 ≤ calculate_slot_quality s e p ∧ calculate_slot_quality s e p ≤ 1 := by
  refine ⟨?_, ?_, ?_⟩
  · have hd60 : ((60 : ℚ) ≤ ((e - s : Int) : ℚ) / 60) ↔ ((3600 : Int) ≤ e - s) := by
      rw [le_div_iff₀ (by norm_num : (0:ℚ) < 60),
        show ((60:ℚ) * 60) = ((3600 : Int) : ℚ) by norm_num]
      exact Int.cast_le
    have hd120 : ((120 : ℚ) ≤ ((e - s : Int) : ℚ) / 60) ↔ ((7200 : Int) ≤ e - s) := by
      rw [le_div_iff₀ (by norm_num : (0:ℚ) < 60),
        show ((120:ℚ) * 60) = ((7200 : Int) : ℚ) by norm_num]
      exact Int.cast_le
    unfold calculate_slot_quality
    simp only [hd60, hd120]
    split_ifs <;> first | omega | norm_num
  · unfold calculate_slot_quality
    exact le_max_left _ _
  · unfold calculate_slot_quality
    exact max_le (by norm_num) (min_le_left _ _)

/-- Witness for `c1_slot_quality_formula` at the 09:00–12:00 slot with
default preferences. -/
theorem c1_slot_quality_formula_witness :
    (32400 : Int) < 43200 ∧
    (calculate_slot_quality 32400 43200 defaultPrefs =
      max 0 (min 1
        ((0.5 : ℚ)
          + (if (workHours defaultPrefs).1 ≤ hourOfDay 32400 ∧
                hourOfDay 32400 < (workHours defaultPrefs).2 then 0.3 else 0)
          + (if (peakHours defaultPrefs).1 ≤ hourOfDay 32400 ∧
                hourOfDay 32400 < (peakHours defaultPrefs).2 then 0.3 else 0)
          + (if defaultPrefs.work_style.getD "flexible" = "morning_person" ∧
                hourOfDay 32400 < 12 then 0.2 else 0)
          + (if defaultPrefs.work_style.getD "flexible" = "evening_person" ∧
                15 ≤ hourOfDay 32400 then 0.2 else 0)
          - (if hourOfDay 32400 < 7 ∨ 20 < hourOfDay 32400 then 0.3 else 0)
          + (if (3600 : Int) ≤ 43200 - 32400 then 0.1 else 0)
          + (if (7200 : Int) ≤ 43200 - 32400 then 0.1 else 0))) ∧
      0 ≤ calculate_slot_quality 32400 43200 defaultPrefs ∧
      calculate_slot_quality 32400 43200 defaultPrefs ≤ 1) :=
  ⟨by decide, c1_slot_quality_formula 32400 43200 defaultPrefs (by decide)⟩

/-! ## C4: per-slot invariants of the output -/

/-- C4: under the claimed preconditions, every returned slot is
non-degenerate, stores the truncated minute length of its own bounds, and
meets the minimum-duration threshold. -/
theorem c4_slot_invariants (events : List CalendarEvent) (s e : Int)
    (p : UserPreferences) (m : Int) (hrange : s ≤ e) (hmin : 0 < m) :
    ∀ slot ∈ calculate_free_time_slots events s e p m,
      slot.start_time < slot.end_time ∧
      slot.duration_minutes = minutesBetween slot.start_time slot.end_time ∧
      m ≤ slot.duration_minutes := by
  intro slot hs
  have h := freeSlotsLoop_mem_props e p m (sortedBusyEvents events) s slot hs
  exact ⟨h.1, h.2.1, h.2.2.1⟩

/-- Witness for `c4_slot_invariants` on the worked scenario. -/
theorem c4_slot_invariants_witness :
    ((32400 : Int) ≤ 61200 ∧ (0 : Int) < 30) ∧
    ∀ slot ∈ calculate_free_time_slots [⟨43200, 46800, true⟩] 32400 61200 defaultPrefs 30,
      slot.start_time < slot.end_time ∧
      slot.duration_minutes = minutesBetween slot.start_time slot.end_time ∧
      (30 : Int) ≤ slot.duration_minutes :=
  ⟨⟨by decide, by decide⟩,
    c4_slot_invariants [⟨43200, 46800, true⟩] 32400 61200 defaultPrefs 30
      (by decide) (by decide)⟩

/-! ## C8: chronological order, disjointness, busy-avoidance -/

/-- Successive slots do not overlap: each slot ends at or before the next
one starts, provided the walked events are non-degenerate. -/
theorem freeSlotsLoop_pairwise (e : Int) (p : UserPreferences) (m : Int) :
    ∀ (l : List CalendarEvent) (c : Int),
      (∀ ev ∈ l, ev.start_time ≤ ev.end_time) →
      List.Pairwise (fun a b : FreeTimeSlot => a.end_time ≤ b.start_time)
        (freeSlotsLoop e p m c l)
  | [], c, _ => by
    simp only [freeSlotsLoop]
    split_ifs <;> simp
  | ev :: rest, c, hwf => by
    have ihp := freeSlotsLoop_pairwise e p m rest (max c ev.end_time)
      (fun x hx => hwf x (List.mem_cons_of_mem _ hx))
    simp only [freeSlotsLoop]
    split_ifs with h1 h2
    · rw [List.singleton_append]
      refine List.Pairwise.cons ?_ ihp
      intro b hb
      have hb' := freeSlotsLoop_mem_props e p m rest (max c ev.end_time) b hb
      exact le_trans (hwf ev (List.mem_cons_self ..))
        (le_trans (le_max_right ..) hb'.2.2.2)
    · simpa using ihp
    · simpa using ihp

/-- No emitted slot intersects any walked event, provided the walked list is
sorted by start time. -/
theorem freeSlotsLoop_no_overlap (e : Int) (p : UserPreferences) (m : Int) :
    ∀ (l : List CalendarEvent) (c : Int), List.Sorted eventLE l →
      ∀ slot ∈ freeSlotsLoop e p m c l, ∀ ev ∈ l,
        ¬(slot.start_time < ev.end_time ∧ ev.start_time < slot.end_time)
  | [], _, _, _, _, _, hev => absurd hev (List.not_mem_nil _)
  | ev0 :: rest, c, hsorted, slot, hs, ev, hev => by
    simp only [freeSlotsLoop, List.mem_append] at hs
    rcases hs with hs | hs
    · split_ifs at hs with h1 h2
      · rw [List.mem_singleton] at hs
        subst hs
        rcases List.mem_cons.mp hev with rfl | hev'
        · rintro ⟨_, habs⟩
          exact absurd habs (lt_irrefl _)
        · rintro ⟨_, habs⟩
          have hle : ev0.start_time ≤ ev.start_time :=
            (List.sorted_cons.mp hsorted).1 ev hev'
          exact absurd habs (not_lt.mpr hle)
      · exact absurd hs (List.not_mem_nil _)
      · exact absurd hs (List.not_mem_nil _)
    · rcases List.mem_cons.mp hev with rfl | hev'
      · have hp := freeSlotsLoop_mem_props e p m rest (max c ev.end_time) slot hs
        rintro ⟨habs, _⟩
        exact absurd habs (not_lt.mpr (le_trans (le_max_right ..) hp.2.2.2))
      · exact freeSlotsLoop_no_overlap e p m rest (max c ev0.end_time)
          (List.sorted_cons.mp hsorted).2 slot hs ev hev'

/-- C8: for inputs whose busy intervals are non-degenerate, the returned
slots are strictly ascending by start time, pairwise disjoint (each ends at
or before the next starts), and no returned slot intersects any busy input
interval. -/
theorem c8_output_ordering (events : List CalendarEvent) (s e : Int)
    (p : UserPreferences) (m : Int)
    (hwf : ∀ ev ∈ events, ev.is_busy = true → ev.start_time ≤ ev.end_time) :
    List.Pairwise (fun a b : FreeTimeSlot => a.start_time < b.start_time)
      (calculate_free_time_slots events s e p m) ∧
    List.Pairwise (fun a b : FreeTimeSlot => a.end_time ≤ b.start_time)
      (calculate_free_time_slots events s e p m) ∧
    ∀ slot ∈ calculate_free_time_slots events s e p m, ∀ ev ∈ events,
      ev.is_busy = true →
      ¬(slot.start_time < ev.end_time ∧ ev.start_time < slot.end_time) := by
  have hwf' : ∀ ev ∈ sortedBusyEvents events, ev.start_time ≤ ev.end_time :=
    fun ev hev => hwf ev (mem_sortedBusyEvents hev).1 (mem_sortedBusyEvents hev).2
  have hsorted : List.Sorted eventLE (sortedBusyEvents events) :=
    List.sorted_insertionSort eventLE _
  have hpw := freeSlotsLoop_pairwise e p m (sortedBusyEvents events) s hwf'
  refine ⟨?_, hpw, ?_⟩
  · refine hpw.imp_of_mem ?_
    intro a b ha hb hab
    exact lt_of_lt_of_le
      (freeSlotsLoop_mem_props e p m (sortedBusyEvents events) s a ha).1 hab
  · intro slot hs ev hev hb
    have hev' : ev ∈ sortedBusyEvents events := by
      unfold sortedBusyEvents
      rw [List.mem_insertionSort, List.mem_filter]
      exact ⟨hev, hb⟩
    exact freeSlotsLoop_no_overlap e p m (sortedBusyEvents events) s hsorted
      slot hs ev hev'

/-- Witness for `c8_output_ordering` on the worked scenario. -/
theorem c8_output_ordering_witness :
    (∀ ev ∈ [(⟨43200, 46800, true⟩ : CalendarEvent)],
      ev.is_busy = true → ev.start_time ≤ ev.end_time) ∧
    (List.Pairwise (fun a b : FreeTimeSlot => a.start_time < b.start_time)
      (calculate_free_time_slots [⟨43200, 46800, true⟩] 32400 61200 defaultPrefs 30) ∧
    List.Pairwise (fun a b : FreeTimeSlot => a.end_time ≤ b.start_time)
      (calculate_free_time_slots [⟨43200, 46800, true⟩] 32400 61200 defaultPrefs 30) ∧
    ∀ slot ∈ calculate_free_time_slots [⟨43200, 46800, true⟩] 32400 61200 defaultPrefs 30,
      ∀ ev ∈ [(⟨43200, 46800, true⟩ : CalendarEvent)], ev.is_busy = true →
      ¬(slot.start_time < ev.end_time ∧ ev.start_time < slot.end_time)) :=
  ⟨by decide,
    c8_output_ordering [⟨43200, 46800, true⟩] 32400 61200 defaultPrefs 30 (by decide)⟩

/-! ## C9: sort order and permutation sensitivity -/

/-- A minimal element of a sorted, non-degenerate walked list can be pulled
to the front without changing the emitted slots. -/
theorem freeSlotsLoop_pull_front (e : Int) (p : UserPreferences) (m : Int) (a : CalendarEvent) :
    ∀ (l : List CalendarEvent) (c : Int), a ∈ l → List.Sorted eventLE l →
      (∀ ev ∈ l, ev.start_time ≤ ev.end_time) →
      (∀ ev ∈ l, a.start_time ≤ ev.start_time) →
      freeSlotsLoop e p m c l = freeSlotsLoop e p m c (a :: l.erase a)
  | [], _, ha, _, _, _ => absurd ha (List.not_mem_nil _)
  | x :: t, c, ha, hsorted, hwf, hmin => by
    by_cases hxa : x = a
    · subst hxa
      rw [List.erase_cons_head]
    · have hat : a ∈ t := (List.mem_cons.mp ha).resolve_left (fun h => hxa h.symm)
      have hxstart : x.start_time = a.start_time :=
        le_antisymm ((List.sorted_cons.mp hsorted).1 a hat)
          (hmin x (List.mem_cons_self ..))
      have hrec := freeSlotsLoop_pull_front e p m a t (max c x.end_time) hat
        (List.sorted_cons.mp hsorted).2
        (fun ev hev => hwf ev (List.mem_cons_of_mem _ hev))
        (fun ev hev => hmin ev (List.mem_cons_of_mem _ hev))
      have herase : (x :: t).erase a = x :: t.erase a := by
        rw [List.erase_cons_tail]
        simp [hxa]
      rw [herase]
      have hga : ¬ (max c x.end_time < a.start_time) :=
        not_lt.mpr (le_trans (hxstart ▸ hwf x (List.mem_cons_self ..)) (le_max_right ..))
      have hgx : ¬ (max c a.end_time < x.start_time) := by
        rw [hxstart]
        exact not_lt.mpr (le_trans (hwf a ha) (le_max_right ..))
      simp only [freeSlotsLoop]
      rw [hrec]
      simp only [freeSlotsLoop, if_neg hga, if_neg hgx, List.nil_append, List.append_nil]
      rw [hxstart]
      have hcur : max (max c x.end_time) a.end_time = max (max c a.end_time) x.end_time :=
        Max.right_comm c x.end_time a.end_time
      rw [hcur]

/-- Two sorted, non-degenerate walked lists that are permutations of each
other produce the same slots. -/
theorem freeSlotsLoop_perm_sorted (e : Int) (p : UserPreferences) (m : Int) :
    ∀ (l₁ l₂ : List CalendarEvent) (c : Int), l₁.Perm l₂ →
      List.Sorted eventLE l₁ → List.Sorted eventLE l₂ →
      (∀ ev ∈ l₁, ev.start_time ≤ ev.end_time) →
      freeSlotsLoop e p m c l₁ = freeSlotsLoop e p m c l₂
  | [], l₂, c, hperm, _, _, _ => by
    rw [List.Perm.eq_nil hperm.symm]
  | a :: t₁, l₂, c, hperm, hs₁, hs₂, hwf => by
    have ha₂ : a ∈ l₂ := hperm.mem_iff.mp (List.mem_cons_self ..)
    have hmin₂ : ∀ ev ∈ l₂, a.start_time ≤ ev.start_time := by
      intro ev hev
      rcases List.mem_cons.mp (hperm.mem_iff.mpr hev) with h | h
      · exact le_of_eq (congrArg CalendarEvent.start_time h.symm)
      · exact (List.sorted_cons.mp hs₁).1 ev h
    have hwf₂ : ∀ ev ∈ l₂, ev.start_time ≤ ev.end_time :=
      fun ev hev => hwf ev (hperm.mem_iff.mpr hev)
    rw [freeSlotsLoop_pull_front e p m a l₂ c ha₂ hs₂ hwf₂ hmin₂]
    simp only [freeSlotsLoop]
    congr 1
    exact freeSlotsLoop_perm_sorted e p m t₁ (l₂.erase a) (max c a.end_time)
      ((hperm.trans (List.perm_cons_erase ha₂)).cons_inv)
      (List.sorted_cons.mp hs₁).2
      (List.Pairwise.sublist (List.erase_sublist a l₂) hs₂)
      (fun ev hev => hwf ev (List.mem_cons_of_mem _ hev))

/-- C9 counterexample: the code sorts only by `start_time` (a stable sort,
ties keep input order — not broken by end ascending), and with a
degenerate busy interval (end before start) tied on start with another
interval, two permutations of the same busy list yield different outputs
(three slots versus two). -/
theorem c9_counterexample :
    [(⟨36000, 34200, true⟩ : CalendarEvent), ⟨36000, 39600, true⟩].Perm
      [⟨36000, 39600, true⟩, ⟨36000, 34200, true⟩] ∧
    calculate_free_time_slots [⟨36000, 34200, true⟩, ⟨36000, 39600, true⟩]
        32400 43200 defaultPrefs 15 ≠
      calculate_free_time_slots [⟨36000, 39600, true⟩, ⟨36000, 34200, true⟩]
        32400 43200 defaultPrefs 15 := by
  constructor
  · exact List.Perm.swap _ _ _
  · have d1 : minutesBetween 32400 36000 = 60 := by decide
    have d2 : minutesBetween 34200 36000 = 30 := by decide
    have d3 : minutesBetween 39600 43200 = 60 := by decide
    have m1 : max (32400 : Int) 34200 = 34200 := by decide
    have m2 : max (34200 : Int) 39600 = 39600 := by decide
    have m3 : max (32400 : Int) 39600 = 39600 := by decide
    have m4 : max (39600 : Int) 34200 = 39600 := by decide
    have hlen1 : (calculate_free_time_slots
        [(⟨36000, 34200, true⟩ : CalendarEvent), ⟨36000, 39600, true⟩]
        32400 43200 defaultPrefs 15).length = 3 := by
      unfold calculate_free_time_slots sortedBusyEvents
      simp [freeSlotsLoop, eventLE, d1, d2, d3, m1, m2]
    have hlen2 : (calculate_free_time_slots
        [(⟨36000, 39600, true⟩ : CalendarEvent), ⟨36000, 34200, true⟩]
        32400 43200 defaultPrefs 15).length = 2 := by
      unfold calculate_free_time_slots sortedBusyEvents
      simp [freeSlotsLoop, eventLE, d1, d3, m3, m4]
    intro h
    rw [h] at hlen1
    rw [hlen1] at hlen2
    exact absurd hlen2 (by decide)

/-- C9 amended: busy intervals are processed in the order of a stable sort
on start ascending (ties keep input order); for inputs whose busy intervals
are all non-degenerate (end at or after start), any two permutations of the
busy list yield identical outputs. -/
theorem c9_amended_perm_invariance (l₁ l₂ : List CalendarEvent) (s e : Int)
    (p : UserPreferences) (m : Int) (hperm : l₁.Perm l₂)
    (hwf : ∀ ev ∈ l₁, ev.is_busy = true → ev.start_time ≤ ev.end_time) :
    calculate_free_time_slots l₁ s e p m = calculate_free_time_slots l₂ s e p m := by
  unfold calculate_free_time_slots
  apply freeSlotsLoop_perm_sorted
  · unfold sortedBusyEvents
    exact (List.perm_insertionSort eventLE _).trans
      ((hperm.filter _).trans (List.perm_insertionSort eventLE _).symm)
  · exact List.sorted_insertionSort eventLE _
  · exact List.sorted_insertionSort eventLE _
  · intro ev hev
    exact hwf ev (mem_sortedBusyEvents hev).1 (mem_sortedBusyEvents hev).2

/-- Witness for `c9_amended_perm_invariance` on a concrete two-event
permutation. -/
theorem c9_amended_perm_invariance_witness :
    ([(⟨43200, 46800, true⟩ : CalendarEvent), ⟨36000, 39600, true⟩].Perm
      [⟨36000, 39600, true⟩, ⟨43200, 46800, true⟩] ∧
     ∀ ev ∈ [(⟨43200, 46800, true⟩ : CalendarEvent), ⟨36000, 39600, true⟩],
       ev.is_busy = true → ev.start_time ≤ ev.end_time) ∧
    calculate_free_time_slots [⟨43200, 46800, true⟩, ⟨36000, 39600, true⟩]
        32400 61200 defaultPrefs 30 =
      calculate_free_time_slots [⟨36000, 39600, true⟩, ⟨43200, 46800, true⟩]
        32400 61200 defaultPrefs 30 :=
  ⟨⟨List.Perm.swap _ _ _, by decide⟩,
    c9_amended_perm_invariance _ _ 32400 61200 defaultPrefs 30
      (List.Perm.swap _ _ _) (by decide)⟩

/-! ## C6: merging overlapping busy intervals -/


/-- Inserting an element into a sorted list splits it at the insertion
point, with everything before strictly earlier-keyed and everything after
at-or-later-keyed. -/
theorem orderedInsert_split (x : CalendarEvent) :
    ∀ (S : List CalendarEvent), List.Sorted eventLE S →
      ∃ Q R, List.orderedInsert eventLE x S = Q ++ x :: R ∧ S = Q ++ R ∧
        (∀ y ∈ Q, eventLE y x) ∧ (∀ y ∈ R, eventLE x y)
  | [], _ => ⟨[], [], rfl, rfl, by simp, by simp⟩
  | z :: t, hs => by
    by_cases hxz : eventLE x z
    · refine ⟨[], z :: t, ?_, rfl, by simp, ?_⟩
      · simp [List.orderedInsert, hxz]
      · intro y hy
        rcases List.mem_cons.mp hy with rfl | hy
        · exact hxz
        · exact le_trans hxz ((List.sorted_cons.mp hs).1 y hy)
    · obtain ⟨Q, R, h1, h2, hQ, hR⟩ := orderedInsert_split x t (List.sorted_cons.mp hs).2
      refine ⟨z :: Q, R, ?_, ?_, ?_, hR⟩
      · simp [List.orderedInsert, hxz, h1]
      · simp [h2]
      · intro y hy
        rcases List.mem_cons.mp hy with rfl | hy
        · exact le_of_lt (lt_of_not_le hxz)
        · exact hQ y hy

/-- Inserting any further element into a list split around `b` preserves
the split (stability of `orderedInsert` around a marked element). -/
theorem orderedInsert_pair (b x : CalendarEvent) :
    ∀ (Q R : List CalendarEvent),
      (∀ y ∈ Q, eventLE y b) → (∀ y ∈ R, eventLE b y) →
      ∃ Q2 R2, List.orderedInsert eventLE x (Q ++ b :: R) = Q2 ++ b :: R2 ∧
        List.orderedInsert eventLE x (Q ++ R) = Q2 ++ R2 ∧
        (∀ y ∈ Q2, eventLE y b) ∧ (∀ y ∈ R2, eventLE b y)
  | [], R, _, hR => by
    by_cases hxb : eventLE x b
    · refine ⟨[x], R, by simp [List.orderedInsert, hxb], ?_, by simpa, hR⟩
      cases R with
      | nil => simp [List.orderedInsert]
      | cons r R2 =>
        simp only [List.nil_append, List.singleton_append]
        exact List.orderedInsert_of_le eventLE R2
          (le_trans hxb (hR r (List.mem_cons_self ..)))
    · refine ⟨[], List.orderedInsert eventLE x R, by simp [List.orderedInsert, hxb], by simp, by simp, ?_⟩
      intro y hy
      rcases (List.mem_orderedInsert eventLE).mp hy with rfl | hy
      · exact le_of_lt (lt_of_not_le hxb)
      · exact hR y hy
  | q :: Q1, R, hQ, hR => by
    by_cases hxq : eventLE x q
    · refine ⟨x :: q :: Q1, R, ?_, ?_, ?_, hR⟩
      · simp [List.orderedInsert, hxq]
      · simp [List.orderedInsert, hxq]
      · intro y hy
        rcases List.mem_cons.mp hy with rfl | hy
        · exact le_trans hxq (hQ _ (List.mem_cons_self ..))
        · exact hQ y hy
    · obtain ⟨Q2, R2, h1, h2, hQ2, hR2⟩ :=
        orderedInsert_pair b x Q1 R (fun y hy => hQ y (List.mem_cons_of_mem _ hy)) hR
      refine ⟨q :: Q2, R2, ?_, ?_, ?_, hR2⟩
      · simp [List.orderedInsert, hxq, h1]
      · simp [List.orderedInsert, hxq, h2]
      · intro y hy
        rcases List.mem_cons.mp hy with rfl | hy
        · exact hQ _ (List.mem_cons_self ..)
        · exact hQ2 y hy

/-- Inserting any further element into the pair of lists related by the
`a`/`b` versus merged-interval surgery preserves the relation (`mb` shares
`a`'s start). -/
theorem orderedInsert_triple (a b mb x : CalendarEvent)
    (hm : mb.start_time = a.start_time) :
    ∀ (P M R : List CalendarEvent),
      (∀ y ∈ M, eventLE y b) → (∀ y ∈ R, eventLE b y) →
      ∃ P2 M2 R2,
        List.orderedInsert eventLE x (P ++ a :: M ++ b :: R) = P2 ++ a :: M2 ++ b :: R2 ∧
        List.orderedInsert eventLE x (P ++ mb :: M ++ R) = P2 ++ mb :: M2 ++ R2 ∧
        (∀ y ∈ M2, eventLE y b) ∧ (∀ y ∈ R2, eventLE b y)
  | [], M, R, hM, hR => by
    by_cases hxa : eventLE x a
    · have hxm : eventLE x mb := by
        show x.start_time ≤ mb.start_time
        rw [hm]
        exact hxa
      refine ⟨[x], M, R, ?_, ?_, hM, hR⟩
      · simp only [List.nil_append, List.cons_append, List.singleton_append]
        exact List.orderedInsert_of_le eventLE _ hxa
      · simp only [List.nil_append, List.cons_append, List.singleton_append]
        exact List.orderedInsert_of_le eventLE _ hxm
    · have hxm : ¬ eventLE x mb := by
        show ¬ x.start_time ≤ mb.start_time
        rw [hm]
        exact hxa
      obtain ⟨M2, R2, h1, h2, hM2, hR2⟩ := orderedInsert_pair b x M R hM hR
      refine ⟨[], M2, R2, ?_, ?_, hM2, hR2⟩
      · simp only [List.nil_append, List.orderedInsert, if_neg hxa, List.append_eq]
        rw [h1]
        try rfl
      · simp only [List.nil_append, List.orderedInsert, if_neg hxm, List.append_eq]
        rw [h2]
        try rfl
  | p0 :: P1, M, R, hM, hR => by
    by_cases hxp : eventLE x p0
    · refine ⟨x :: p0 :: P1, M, R, ?_, ?_, hM, hR⟩
      · simp [List.orderedInsert, hxp]
      · simp [List.orderedInsert, hxp]
    · obtain ⟨P2, M2, R2, h1, h2, hM2, hR2⟩ :=
        orderedInsert_triple a b mb x hm P1 M R hM hR
      refine ⟨p0 :: P2, M2, R2, ?_, ?_, hM2, hR2⟩
      · simp only [List.cons_append, List.orderedInsert, if_neg hxp, List.append_eq]
        rw [h1]
        try rfl
      · simp only [List.cons_append, List.orderedInsert, if_neg hxp, List.append_eq]
        rw [h2]
        try rfl

/-- Inserting `a` next to the marked `b` on one side and the merged
interval `mb` on the other produces the surgery relation. -/
theorem orderedInsert_triple_base (a b mb : CalendarEvent)
    (hm : mb.start_time = a.start_time) (hab : eventLE a b) :
    ∀ (Q R : List CalendarEvent),
      (∀ y ∈ Q, eventLE y b) → (∀ y ∈ R, eventLE b y) →
      ∃ P M R2,
        List.orderedInsert eventLE a (Q ++ b :: R) = P ++ a :: M ++ b :: R2 ∧
        List.orderedInsert eventLE mb (Q ++ R) = P ++ mb :: M ++ R2 ∧
        (∀ y ∈ M, eventLE y b) ∧ (∀ y ∈ R2, eventLE b y)
  | [], R, _, hR => by
    refine ⟨[], [], R, ?_, ?_, by simp, hR⟩
    · simp only [List.nil_append]
      exact List.orderedInsert_of_le eventLE _ hab
    · cases R with
      | nil => simp [List.orderedInsert]
      | cons r R1 =>
        simp only [List.nil_append]
        refine List.orderedInsert_of_le eventLE _ ?_
        show mb.start_time ≤ r.start_time
        rw [hm]
        exact le_trans hab (hR r (List.mem_cons_self ..))
  | q :: Q1, R, hQ, hR => by
    by_cases haq : eventLE a q
    · have hmq : eventLE mb q := by
        show mb.start_time ≤ q.start_time
        rw [hm]
        exact haq
      refine ⟨[], q :: Q1, R, ?_, ?_, hQ, hR⟩
      · simp only [List.nil_append, List.cons_append]
        exact List.orderedInsert_of_le eventLE _ haq
      · simp only [List.nil_append, List.cons_append]
        exact List.orderedInsert_of_le eventLE _ hmq
    · have hmq : ¬ eventLE mb q := by
        show ¬ mb.start_time ≤ q.start_time
        rw [hm]
        exact haq
      obtain ⟨P, M, R2, h1, h2, hM, hR2⟩ := orderedInsert_triple_base a b mb hm hab Q1 R
        (fun y hy => hQ y (List.mem_cons_of_mem _ hy)) hR
      refine ⟨q :: P, M, R2, ?_, ?_, hM, hR2⟩
      · simp only [List.cons_append, List.orderedInsert, if_neg haq, List.append_eq]
        rw [h1]
        try rfl
      · simp only [List.cons_append, List.orderedInsert, if_neg hmq, List.append_eq]
        rw [h2]
        try rfl

/-- Stable sorting a list with `b` spliced in splits the sorted output
around `b`, the remainder being the sorted output without `b`. -/
theorem insertionSort_pair (b : CalendarEvent) :
    ∀ (V W : List CalendarEvent),
      ∃ Q R, List.insertionSort eventLE (V ++ b :: W) = Q ++ b :: R ∧
        List.insertionSort eventLE (V ++ W) = Q ++ R ∧
        (∀ y ∈ Q, eventLE y b) ∧ (∀ y ∈ R, eventLE b y)
  | [], W => by
    obtain ⟨Q, R, h1, h2, hQ, hR⟩ := orderedInsert_split b (List.insertionSort eventLE W)
      (List.sorted_insertionSort eventLE W)
    refine ⟨Q, R, ?_, ?_, hQ, hR⟩
    · show List.orderedInsert eventLE b (List.insertionSort eventLE W) = Q ++ b :: R
      exact h1
    · show List.insertionSort eventLE W = Q ++ R
      exact h2
  | v :: V1, W => by
    obtain ⟨Q, R, h1, h2, hQ, hR⟩ := insertionSort_pair b V1 W
    obtain ⟨Q2, R2, g1, g2, hQ2, hR2⟩ := orderedInsert_pair b v Q R hQ hR
    refine ⟨Q2, R2, ?_, ?_, hQ2, hR2⟩
    · show List.orderedInsert eventLE v (List.insertionSort eventLE (V1 ++ b :: W)) = Q2 ++ b :: R2
      rw [h1]
      try rfl
      exact g1
    · show List.orderedInsert eventLE v (List.insertionSort eventLE (V1 ++ W)) = Q2 ++ R2
      rw [h2]
      try rfl
      exact g2

/-- Stable sorting relates the list containing overlapping `a` and `b` to
the list containing the merged interval instead: the sorted outputs agree
except that `a ... b` is replaced by the merged interval at `a`'s
position. -/
theorem insertionSort_triple (a b mb : CalendarEvent)
    (hm : mb.start_time = a.start_time) (hab : eventLE a b) :
    ∀ (U V W : List CalendarEvent),
      ∃ P M R,
        List.insertionSort eventLE (U ++ a :: V ++ b :: W) = P ++ a :: M ++ b :: R ∧
        List.insertionSort eventLE (U ++ mb :: V ++ W) = P ++ mb :: M ++ R ∧
        (∀ y ∈ M, eventLE y b) ∧ (∀ y ∈ R, eventLE b y)
  | [], V, W => by
    obtain ⟨Q, R, h1, h2, hQ, hR⟩ := insertionSort_pair b V W
    obtain ⟨P, M, R2, g1, g2, hM, hR2⟩ := orderedInsert_triple_base a b mb hm hab Q R hQ hR
    refine ⟨P, M, R2, ?_, ?_, hM, hR2⟩
    · show List.orderedInsert eventLE a (List.insertionSort eventLE (V ++ b :: W)) =
        P ++ a :: M ++ b :: R2
      rw [h1]
      try rfl
      exact g1
    · show List.orderedInsert eventLE mb (List.insertionSort eventLE (V ++ W)) =
        P ++ mb :: M ++ R2
      rw [h2]
      try rfl
      exact g2
  | u0 :: U1, V, W => by
    obtain ⟨P, M, R, h1, h2, hM, hR⟩ := insertionSort_triple a b mb hm hab U1 V W
    obtain ⟨P2, M2, R2, g1, g2, hM2, hR2⟩ := orderedInsert_triple a b mb u0 hm P M R hM hR
    refine ⟨P2, M2, R2, ?_, ?_, hM2, hR2⟩
    · show List.orderedInsert eventLE u0 (List.insertionSort eventLE (U1 ++ a :: V ++ b :: W)) =
        P2 ++ a :: M2 ++ b :: R2
      rw [h1]
      try rfl
      exact g1
    · show List.orderedInsert eventLE u0 (List.insertionSort eventLE (U1 ++ mb :: V ++ W)) =
        P2 ++ mb :: M2 ++ R2
      rw [h2]
      try rfl
      exact g2

/-- The walk is a congruence in its tail: equal continuations after a
common prefix give equal outputs. -/
theorem freeSlotsLoop_append_congr (e : Int) (p : UserPreferences) (m : Int)
    (X Y : List CalendarEvent)
    (h : ∀ c : Int, freeSlotsLoop e p m c X = freeSlotsLoop e p m c Y) :
    ∀ (P : List CalendarEvent) (c : Int),
      freeSlotsLoop e p m c (P ++ X) = freeSlotsLoop e p m c (P ++ Y)
  | [], c => h c
  | q :: P1, c => by
    simp only [List.cons_append, freeSlotsLoop, List.append_eq]
    rw [freeSlotsLoop_append_congr e p m X Y h P1 (max c q.end_time)]

/-- A run of events that all start at or before the cursor emits no slots
and only accumulates the maximum of their ends into the cursor. -/
theorem freeSlotsLoop_skip_run (e : Int) (p : UserPreferences) (m : Int)
    (X : List CalendarEvent) :
    ∀ (M : List CalendarEvent) (c : Int), (∀ y ∈ M, y.start_time ≤ c) →
      freeSlotsLoop e p m c (M ++ X) =
        freeSlotsLoop e p m (M.foldl (fun acc y => max acc y.end_time) c) X
  | [], c, _ => rfl
  | y :: M1, c, h => by
    simp only [List.cons_append, freeSlotsLoop, List.append_eq,
      if_neg (not_lt.mpr (h y (List.mem_cons_self ..))), List.nil_append, List.foldl_cons]
    exact freeSlotsLoop_skip_run e p m X M1 (max c y.end_time)
      (fun z hz => le_trans (h z (List.mem_cons_of_mem _ hz)) (le_max_left ..))

/-- Folding maximum of ends over a list commutes with a maximum in the
initial value. -/
theorem foldl_max_out :
    ∀ (M : List CalendarEvent) (c d : Int),
      M.foldl (fun acc y => max acc y.end_time) (max c d) =
        max (M.foldl (fun acc y => max acc y.end_time) c) d
  | [], _, _ => rfl
  | y :: M1, c, d => by
    simp only [List.foldl_cons]
    rw [Max.right_comm c d y.end_time, foldl_max_out M1 (max c y.end_time) d]

/-- The fold of maxima is at least its initial value. -/
theorem foldl_max_init_le :
    ∀ (M : List CalendarEvent) (c : Int),
      c ≤ M.foldl (fun acc y => max acc y.end_time) c
  | [], _ => le_refl _
  | y :: M1, c => le_trans (le_max_left ..) (foldl_max_init_le M1 (max c y.end_time))

/-- C6: replacing two overlapping busy intervals `a`, `b`
(`a.start <= b.start <= a.end`) by the single merged busy interval from
`min` of starts to `max` of ends leaves the output unchanged, whatever
else the input list contains. -/
theorem c6_merge_overlapping (u v w : List CalendarEvent) (a b : CalendarEvent)
    (s e : Int) (p : UserPreferences) (m : Int)
    (hbusy_a : a.is_busy = true) (hbusy_b : b.is_busy = true)
    (hab : a.start_time ≤ b.start_time) (hba : b.start_time ≤ a.end_time) :
    calculate_free_time_slots (u ++ a :: v ++ b :: w) s e p m =
      calculate_free_time_slots
        (u ++ (⟨min a.start_time b.start_time, max a.end_time b.end_time, true⟩ : CalendarEvent)
          :: v ++ w) s e p m := by
  rw [show (⟨min a.start_time b.start_time, max a.end_time b.end_time, true⟩ : CalendarEvent)
      = ⟨a.start_time, max a.end_time b.end_time, true⟩ by rw [min_eq_left hab]]
  unfold calculate_free_time_slots sortedBusyEvents
  have hfa : List.filter (fun ev => ev.is_busy) (u ++ a :: v ++ b :: w) =
      List.filter (fun ev => ev.is_busy) u ++ a :: List.filter (fun ev => ev.is_busy) v ++
        b :: List.filter (fun ev => ev.is_busy) w := by
    simp [List.filter_append, List.filter_cons, hbusy_a, hbusy_b]
  have hfb : List.filter (fun ev => ev.is_busy)
      (u ++ (⟨a.start_time, max a.end_time b.end_time, true⟩ : CalendarEvent) :: v ++ w) =
      List.filter (fun ev => ev.is_busy) u ++
        (⟨a.start_time, max a.end_time b.end_time, true⟩ : CalendarEvent) ::
        List.filter (fun ev => ev.is_busy) v ++ List.filter (fun ev => ev.is_busy) w := by
    simp [List.filter_append, List.filter_cons]
  obtain ⟨P, M, R, h1, h2, hM, hR⟩ :=
    insertionSort_triple a b (⟨a.start_time, max a.end_time b.end_time, true⟩ : CalendarEvent)
      rfl hab (List.filter (fun ev => ev.is_busy) u) (List.filter (fun ev => ev.is_busy) v)
      (List.filter (fun ev => ev.is_busy) w)
  rw [hfa, hfb]
  simp only [List.append_assoc, List.cons_append] at h1 h2 ⊢
  rw [h1, h2]
  apply freeSlotsLoop_append_congr
  intro c
  simp only [freeSlotsLoop]
  congr 1
  rw [freeSlotsLoop_skip_run e p m (b :: R) M (max c a.end_time)
      (fun y hy => le_trans (le_trans (hM y hy) hba) (le_max_right ..)),
    freeSlotsLoop_skip_run e p m R M (max c (max a.end_time b.end_time))
      (fun y hy => le_trans (le_trans (le_trans (hM y hy) hba) (le_max_left ..)) (le_max_right ..))]
  simp only [freeSlotsLoop,
    if_neg (not_lt.mpr (le_trans (le_trans hba (le_max_right c a.end_time))
      (foldl_max_init_le M (max c a.end_time)))),
    List.nil_append]
  congr 1
  rw [← max_assoc]
  rw [foldl_max_out M (max c a.end_time) b.end_time]


/-- Witness for `c6_merge_overlapping`: busy 09:00-10:00 and 09:30-10:30
merge to 09:00-10:30 with an unchanged result. -/
theorem c6_merge_overlapping_witness :
    ((⟨32400, 36000, true⟩ : CalendarEvent).is_busy = true ∧
     (⟨34200, 37800, true⟩ : CalendarEvent).is_busy = true ∧
     (⟨32400, 36000, true⟩ : CalendarEvent).start_time ≤
       (⟨34200, 37800, true⟩ : CalendarEvent).start_time ∧
     (⟨34200, 37800, true⟩ : CalendarEvent).start_time ≤
       (⟨32400, 36000, true⟩ : CalendarEvent).end_time) ∧
    calculate_free_time_slots
        ([] ++ (⟨32400, 36000, true⟩ : CalendarEvent) :: [] ++
          (⟨34200, 37800, true⟩ : CalendarEvent) :: []) 28800 43200 defaultPrefs 15 =
      calculate_free_time_slots
        ([] ++ (⟨min (⟨32400, 36000, true⟩ : CalendarEvent).start_time
                  (⟨34200, 37800, true⟩ : CalendarEvent).start_time,
                max (⟨32400, 36000, true⟩ : CalendarEvent).end_time
                  (⟨34200, 37800, true⟩ : CalendarEvent).end_time,
                true⟩ : CalendarEvent) :: [] ++ []) 28800 43200 defaultPrefs 15 :=
  ⟨⟨rfl, rfl, by decide, by decide⟩,
    c6_merge_overlapping [] [] [] ⟨32400, 36000, true⟩ ⟨34200, 37800, true⟩
      28800 43200 defaultPrefs 15 rfl rfl (by decide) (by decide)⟩
